import Mathlib

/-!
Verification of the linuxtorouter core services against their specification.

The Go sources under `internal/services` (iptables.go, iproute.go, iprule.go,
persist.go) are shallowly embedded below.  Machine integers follow Go
semantics explicitly: `uint64` arithmetic is reduced modulo `2 ^ 64`,
`strconv.ParseUint(_, 10, 64)` returns 0 on a syntax error and the clamped
maximum on a range error (the Go callers discard the error value).  Strings
are modelled on `List Char`; all inputs of interest are ASCII, where Go's
byte-wise string operations and the character-wise operations used here
agree.
-/

/-! ## Go string primitives -/

/-- True for the ASCII white-space characters recognised by Go's
`unicode.IsSpace` (the inputs handled by the services are ASCII). -/
def isGoSpace (c : Char) : Bool :=
  c = ' ' || c = '\t' || c = '\n' || c = '\x0b' || c = '\x0c' || c = '\r'

/-- Character classes matched by `\s` in Go's regexp package:
`[\t\n\f\r ]`. -/
def isReSpace (c : Char) : Bool :=
  c = '\t' || c = '\n' || c = '\x0c' || c = '\r' || c = ' '

/-- Accumulator-passing worker for `goFieldsL`. -/
def goFieldsGo (acc : List Char) : List Char → List (List Char)
  | [] => if acc = [] then [] else [acc.reverse]
  | c :: rest =>
    if isGoSpace c then
      if acc = [] then goFieldsGo [] rest
      else acc.reverse :: goFieldsGo [] rest
    else goFieldsGo (c :: acc) rest

/-- Model of Go's `strings.Fields`: the maximal runs of non-white-space
characters, in order. -/
def goFieldsL (cs : List Char) : List (List Char) :=
  goFieldsGo [] cs

/-- Model of Go's `strings.Fields` on `String`. -/
def goFields (s : String) : List String :=
  (goFieldsL s.data).map String.mk

/-- Model of Go's `strings.TrimSpace` (ASCII inputs). -/
def goTrimSpaceL (cs : List Char) : List Char :=
  ((cs.dropWhile isGoSpace).reverse.dropWhile isGoSpace).reverse

/-- Model of Go's `strings.TrimSpace` on `String`. -/
def goTrimSpace (s : String) : String :=
  String.mk (goTrimSpaceL s.data)

/-- True when the character list `pre` is an initial segment of `cs`.
Models Go's `strings.HasPrefix` for ASCII strings (byte-wise and
character-wise prefixes coincide there). -/
def listStartsWith : List Char → List Char → Bool
  | _, [] => true
  | [], _ :: _ => false
  | c :: cs, p :: ps => c = p && listStartsWith (cs) (ps)

/-- Model of Go's `strings.HasPrefix s pre` (and, on Unix, of the deprecated
`filepath.HasPrefix`, which is implemented as exactly this string test). -/
def goStartsWith (s pre : String) : Bool :=
  listStartsWith s.data pre.data

/-- Accumulator-passing worker for `splitOnCharL`. -/
def splitOnCharGo (sep : Char) (acc : List Char) : List Char → List (List Char)
  | [] => [acc.reverse]
  | c :: rest =>
    if c = sep then acc.reverse :: splitOnCharGo sep [] rest
    else splitOnCharGo sep (c :: acc) rest

/-- Split a character list at every occurrence of `sep` (the separators are
dropped, empty segments are kept), as Go's `strings.Split` does. -/
def splitOnCharL (sep : Char) (cs : List Char) : List (List Char) :=
  splitOnCharGo sep [] cs

/-- Split at the first occurrence of `sep` only, as Go's
`strings.SplitN (s, sep, 2)` does: one segment when `sep` is absent,
exactly two otherwise. -/
def splitN2Go (sep : Char) (acc : List Char) : List Char → List (List Char)
  | [] => [acc.reverse]
  | c :: rest =>
    if c = sep then [acc.reverse, rest]
    else splitN2Go sep (c :: acc) rest

/-- Model of Go's `strings.SplitN (s, " ", 2)` on `String`. -/
def goSplitN2Space (s : String) : List String :=
  (splitN2Go ' ' [] s.data).map String.mk

/-- Drop one trailing carriage return, as `bufio.ScanLines` does to each
line. -/
def dropTrailingCR (cs : List Char) : List Char :=
  if cs.getLast? = some '\r' then cs.dropLast else cs

/-- Model of reading `s` line by line with `bufio.Scanner` and
`bufio.ScanLines`: split at every newline, drop the empty segment produced
by a final newline, and strip one trailing `\r` from each line. -/
def goScanLines (s : String) : List String :=
  if s.data = [] then []
  else
    let segs := splitOnCharL '\n' s.data
    let segs := if s.data.getLast? = some '\n' then segs.dropLast else segs
    segs.map (fun cs => String.mk (dropTrailingCR cs))

/-- Numeric value of a decimal digit string, the accumulator loop used by
Go's `strconv` parsers. -/
def digitsVal (ds : List Char) : Nat :=
  ds.foldl (fun a c => a * 10 + (c.toNat - 48)) 0

/-- Model of Go's `strconv.ParseUint (s, 10, 64)` as used with a discarded
error: 0 on empty or non-digit input (syntax error), the clamped maximum
`2 ^ 64 - 1` on range overflow, the exact value otherwise. -/
def goParseUint64 (cs : List Char) : Nat :=
  if cs ≠ [] ∧ cs.all Char.isDigit then min (digitsVal cs) (2 ^ 64 - 1) else 0

/-- Clamp a natural number to Go's `int64` maximum, as `strconv.ParseInt`
does on range overflow. -/
def int64Clamp (n : Nat) : Int :=
  Int.ofNat (min n (2 ^ 63 - 1))

/-- Model of Go's `strconv.Atoi` with a discarded error: optional sign,
decimal digits; 0 on a syntax error, value clamped to the `int64` range on
overflow. -/
def goAtoiL (cs : List Char) : Int :=
  match cs with
  | [] => 0
  | '+' :: ds =>
    if ds ≠ [] ∧ ds.all Char.isDigit then int64Clamp (digitsVal ds) else 0
  | '-' :: ds =>
    if ds ≠ [] ∧ ds.all Char.isDigit then -Int.ofNat (min (digitsVal ds) (2 ^ 63)) else 0
  | ds =>
    if ds.all Char.isDigit then int64Clamp (digitsVal ds) else 0

/-- Model of Go's `strconv.Atoi` on `String`. -/
def goAtoi (s : String) : Int :=
  goAtoiL s.data

/-! ## Counter-suffix parsing (iptables.go, `parseSuffixedNumber`)

Go source:
```
func parseSuffixedNumber(s string) uint64 {
    if s == "" { return 0 }
    multiplier := uint64(1)
    numStr := s
    lastChar := s[len(s)-1]
    switch lastChar {
    case 'K': multiplier = 1024;               numStr = s[:len(s)-1]
    case 'M': multiplier = 1024 * 1024;        numStr = s[:len(s)-1]
    case 'G': multiplier = 1024 * 1024 * 1024; numStr = s[:len(s)-1]
    }
    val, _ := strconv.ParseUint(numStr, 10, 64)
    return val * multiplier
}
```
The final multiplication is Go `uint64` arithmetic, hence reduced modulo
`2 ^ 64`. -/

/-- Character-list worker for `parseSuffixedNumber`. -/
def parseSuffixedNumberL (cs : List Char) : Nat :=
  match cs.getLast? with
  | none => 0
  | some lastChar =>
    let p :=
      if lastChar = 'K' then (1024, cs.dropLast)
      else if lastChar = 'M' then (1024 * 1024, cs.dropLast)
      else if lastChar = 'G' then (1024 * 1024 * 1024, cs.dropLast)
      else (1, cs)
    goParseUint64 p.2 * p.1 % 2 ^ 64

/-- Model of `parseSuffixedNumber` from iptables.go. -/
def parseSuffixedNumber (s : String) : Nat :=
  parseSuffixedNumberL s.data

/-! ## Path handling (persist.go, `ImportConfig`)

`ImportConfig` resolves each tar entry as
`targetPath := filepath.Join(s.configDir, header.Name)` and then guards with
`filepath.HasPrefix(targetPath, s.configDir)` before creating the entry.
`filepath.Join` cleans the joined path lexically; on Unix
`filepath.HasPrefix` is a plain string-prefix test. -/

/-- Worker for `goClean`: Go's `filepath.Clean` element loop.  `out` is the
list of path elements kept so far. -/
def cleanElems (rooted : Bool) (out : List (List Char)) :
    List (List Char) → List (List Char)
  | [] => out
  | e :: rest =>
    if e = [] ∨ e = ['.'] then cleanElems rooted out rest
    else if e = ['.', '.'] then
      if out ≠ [] ∧ out.getLast? ≠ some ['.', '.'] then
        cleanElems rooted out.dropLast rest
      else if rooted then cleanElems rooted out rest
      else cleanElems rooted (out ++ [['.', '.']]) rest
    else cleanElems rooted (out ++ [e]) rest

/-- Model of Go's `filepath.Clean` on Unix: purely lexical simplification —
drop empty and `.` elements, resolve `..` against preceding elements (and
against the root, where it is a no-op), return `.` for an empty result. -/
def goClean (s : String) : String :=
  if s = "" then "."
  else
    let cs := s.data
    let rooted := cs.head? = some '/'
    let elems := cleanElems rooted [] (splitOnCharL '/' cs)
    let body := List.intercalate ['/'] elems
    let full := (if rooted then ['/'] else []) ++ body
    if full = [] then "." else String.mk full

/-- Model of Go's `filepath.Join a b` on Unix: the non-empty parts joined
with a separator, then cleaned. -/
def goFilepathJoin (a b : String) : String :=
  if a = "" then (if b = "" then "" else goClean b)
  else if b = "" then goClean a
  else goClean (a ++ "/" ++ b)

/-- Per-entry path guard of `ImportConfig` (persist.go): resolve the entry
name against the store root, accept (`some targetPath`) when the resolved
path passes `filepath.HasPrefix(targetPath, configDir)`, reject (`none`,
the `invalid path in archive` error) otherwise.  Accepted entries are then
written to `targetPath`. -/
def importEntryCheck (configDir name : String) : Option String :=
  let targetPath := goFilepathJoin configDir name
  if goStartsWith targetPath configDir then some targetPath else none

/-- A path lies within the store-root directory when it is the root itself
or a proper descendant of it (root followed by a path separator). -/
def isWithinRoot (root p : String) : Bool :=
  p = root || goStartsWith p (root ++ "/")

/-! ## Data model (internal/models) -/

/-- models.FirewallRule (firewall.go). -/
structure FirewallRule where
  Num : Int := 0
  Target : String := ""
  Protocol : String := ""
  Opt : String := ""
  In : String := ""
  Out : String := ""
  Source : String := ""
  Destination : String := ""
  Extra : String := ""
  Packets : Nat := 0
  Bytes : Nat := 0
  deriving DecidableEq, Repr

/-- models.FirewallRuleInput (firewall.go). -/
structure FirewallRuleInput where
  Table : String := ""
  Chain : String := ""
  Position : Int := 0
  Protocol : String := ""
  Source : String := ""
  Destination : String := ""
  InInterface : String := ""
  OutInterface : String := ""
  DPort : String := ""
  SPort : String := ""
  Target : String := ""
  ToDestination : String := ""
  ToSource : String := ""
  State : String := ""
  Comment : String := ""
  deriving DecidableEq, Repr

/-- models.Route (route.go).  `Metric` is a Go `int`; the Go field `Type`
is rendered `Typ` here because `Type` is reserved in Lean. -/
structure Route where
  Destination : String := ""
  Gateway : String := ""
  Interface : String := ""
  Metric : Int := 0
  Scope : String := ""
  Protocol : String := ""
  Typ : String := ""
  Table : String := ""
  Source : String := ""
  Flags : String := ""
  deriving DecidableEq, Repr

/-- models.IPRule (rule.go).  Priorities are parsed from decimal digit
strings, hence non-negative. -/
structure IPRule where
  Priority : Nat := 0
  Selector : String := ""
  Action : String := ""
  Table : String := ""
  From : String := ""
  To : String := ""
  FWMark : String := ""
  IIF : String := ""
  OIF : String := ""
  Not : Bool := false
  deriving DecidableEq, Repr

/-! ## Route-listing parser (iproute.go, `parseRouteLine`) -/

/-- Keyword/value loop of `parseRouteLine` (the `for i := 1; ...` switch):
`via`, `dev`, `proto`, `scope`, `src`, `metric`, `table` each consume the
following token when one exists; unknown tokens are skipped. -/
def parseRouteKVs (r : Route) : List String → Route
  | [] => r
  | t :: rest =>
    if t = "via" then
      match rest with
      | v :: rest2 => parseRouteKVs { r with Gateway := v } rest2
      | [] => r
    else if t = "dev" then
      match rest with
      | v :: rest2 => parseRouteKVs { r with Interface := v } rest2
      | [] => r
    else if t = "proto" then
      match rest with
      | v :: rest2 => parseRouteKVs { r with Protocol := v } rest2
      | [] => r
    else if t = "scope" then
      match rest with
      | v :: rest2 => parseRouteKVs { r with Scope := v } rest2
      | [] => r
    else if t = "src" then
      match rest with
      | v :: rest2 => parseRouteKVs { r with Source := v } rest2
      | [] => r
    else if t = "metric" then
      match rest with
      | v :: rest2 => parseRouteKVs { r with Metric := goAtoi v } rest2
      | [] => r
    else if t = "table" then
      match rest with
      | v :: rest2 => parseRouteKVs { r with Table := v } rest2
      | [] => r
    else parseRouteKVs r rest

/-- Route-type fix-up at the end of `parseRouteLine`: when the destination
begins with a route-type keyword, split it at the first space, store the
head as the type and, if the split produced a second part, re-assign the
destination to it. -/
def routeTypeFixup (r : Route) : Route :=
  if goStartsWith r.Destination "broadcast" || goStartsWith r.Destination "local"
      || goStartsWith r.Destination "unreachable" then
    let typeParts := goSplitN2Space r.Destination
    let r2 := { r with Typ := typeParts.headD "" }
    if h : 1 < typeParts.length then { r2 with Destination := typeParts.get ⟨1, h⟩ }
    else r2
  else r

/-- Model of `parseRouteLine` from iproute.go: the first field is taken as
the destination, the remaining fields are scanned as keyword/value pairs,
and the route-type fix-up runs last. -/
def parseRouteLine (line defaultTable : String) : Option Route :=
  let parts := goFields line
  match parts with
  | [] => none
  | dest :: rest =>
    let r0 : Route := { Destination := dest, Table := defaultTable }
    some (routeTypeFixup (parseRouteKVs r0 rest))

/-! ## Policy-rule parser (iprule.go, `parseRuleOutput`) -/

/-- Match of the anchored pattern `(\d+):\s+(.+)` against a whole line:
a non-empty maximal run of digits, a colon, a non-empty maximal run of
`\s` characters, then a non-empty remainder free of newlines.  Returns the
two capture groups. -/
def matchPriorityLine (cs : List Char) : Option (List Char × List Char) :=
  let digits := cs.takeWhile Char.isDigit
  let rest1 := cs.drop digits.length
  if digits = [] then none
  else
    match rest1 with
    | ':' :: rest2 =>
      let ws := rest2.takeWhile isReSpace
      let rest3 := rest2.drop ws.length
      if ws = [] ∨ rest3 = [] ∨ rest3.contains '\n' then none
      else some (digits, rest3)
    | _ => none

/-- Selector-token loop of `parseRuleOutput` (the `for i := 0; ...` switch):
`from`, `to`, `fwmark`, `iif`, `oif`, `lookup` consume the following token
when one exists (`lookup` also sets the action), `unreachable`, `blackhole`,
`prohibit` set the action, `not` sets the negation flag, anything else is
skipped. -/
def parseRuleSelector (r : IPRule) : List String → IPRule
  | [] => r
  | t :: rest =>
    if t = "from" then
      match rest with
      | v :: rest2 => parseRuleSelector { r with From := v } rest2
      | [] => r
    else if t = "to" then
      match rest with
      | v :: rest2 => parseRuleSelector { r with To := v } rest2
      | [] => r
    else if t = "fwmark" then
      match rest with
      | v :: rest2 => parseRuleSelector { r with FWMark := v } rest2
      | [] => r
    else if t = "iif" then
      match rest with
      | v :: rest2 => parseRuleSelector { r with IIF := v } rest2
      | [] => r
    else if t = "oif" then
      match rest with
      | v :: rest2 => parseRuleSelector { r with OIF := v } rest2
      | [] => r
    else if t = "lookup" then
      match rest with
      | v :: rest2 => parseRuleSelector { r with Table := v, Action := "lookup" } rest2
      | [] => r
    else if t = "unreachable" then parseRuleSelector { r with Action := "unreachable" } rest
    else if t = "blackhole" then parseRuleSelector { r with Action := "blackhole" } rest
    else if t = "prohibit" then parseRuleSelector { r with Action := "prohibit" } rest
    else if t = "not" then parseRuleSelector { r with Not := true } rest
    else parseRuleSelector r rest

/-- Per-line body of `parseRuleOutput`: trim the line, skip it when empty or
when the `priority: selector` pattern does not match, otherwise build the
rule from the priority digits and the selector text. -/
def parseIPRuleLine (line : String) : Option IPRule :=
  let t := goTrimSpaceL line.data
  if t = [] then none
  else
    match matchPriorityLine t with
    | none => none
    | some caps =>
      let base : IPRule :=
        { Priority := (goAtoiL caps.1).toNat, Selector := String.mk caps.2 }
      some (parseRuleSelector base (goFields (String.mk caps.2)))

/-- Model of `parseRuleOutput` from iprule.go: scan the listing line by
line, keeping the successfully parsed rules in order. -/
def parseRuleOutput (output : String) : List IPRule :=
  (goScanLines output).filterMap parseIPRuleLine

/-- The match-everything source selector of the policy-rule domain: listings
print it as `from all`, `AddRule` supplies `from all` when the caller left
the field empty, and `SaveRules` treats it as omittable. -/
def ipRuleMatchAllSentinel : String := "all"

/-! ## Firewall invocation builder (iptables.go, `buildRuleArgs`) -/

/-- The match-everything protocol of the firewall domain. -/
def fwProtocolAllSentinel : String := "all"

/-- The all-addresses CIDR, the firewall domain's match-everything source
and destination. -/
def fwAddressAllSentinel : String := "0.0.0.0/0"

/-- The tail of `buildRuleArgs` after the three protocol/source/destination
selectors, with the Go `args` accumulator explicit: conditional appends for
interfaces, ports, state, comment, the mandatory target, and the
translation flags, in source order. -/
def buildRuleArgsRest (input : FirewallRuleInput) (args0 : List String) : List String :=
  let args := args0
  let args := if input.InInterface ≠ "" then args ++ ["-i", input.InInterface] else args
  let args := if input.OutInterface ≠ "" then args ++ ["-o", input.OutInterface] else args
  let args := if input.DPort ≠ "" then args ++ ["--dport", input.DPort] else args
  let args := if input.SPort ≠ "" then args ++ ["--sport", input.SPort] else args
  let args := if input.State ≠ "" then args ++ ["-m", "state", "--state", input.State] else args
  let args := if input.Comment ≠ "" then args ++ ["-m", "comment", "--comment", input.Comment] else args
  let args := args ++ ["-j", input.Target]
  let args := if input.ToDestination ≠ "" then args ++ ["--to-destination", input.ToDestination] else args
  let args := if input.ToSource ≠ "" then args ++ ["--to-source", input.ToSource] else args
  args

/-- Model of `buildRuleArgs` from iptables.go: sequential conditional
appends, in source order (the tail is `buildRuleArgsRest`). -/
def buildRuleArgs (input : FirewallRuleInput) : List String :=
  let args : List String := []
  let args := if input.Protocol ≠ "" ∧ input.Protocol ≠ "all" then
    args ++ ["-p", input.Protocol] else args
  let args := if input.Source ≠ "" ∧ input.Source ≠ "0.0.0.0/0" then
    args ++ ["-s", input.Source] else args
  let args := if input.Destination ≠ "" ∧ input.Destination ≠ "0.0.0.0/0" then
    args ++ ["-d", input.Destination] else args
  buildRuleArgsRest input args

/-- Stated from the spec's canonicalization rule: the protocol selector is
omitted exactly when the field is empty or equals the match-everything
protocol, and otherwise appears as the flag with the field's value. -/
def protocolArgsSpec (input : FirewallRuleInput) : List String :=
  if input.Protocol = "" ∨ input.Protocol = fwProtocolAllSentinel then []
  else ["-p", input.Protocol]

/-- Stated from the spec's canonicalization rule, for the source selector. -/
def sourceArgsSpec (input : FirewallRuleInput) : List String :=
  if input.Source = "" ∨ input.Source = fwAddressAllSentinel then []
  else ["-s", input.Source]

/-- Stated from the spec's canonicalization rule, for the destination
selector. -/
def destinationArgsSpec (input : FirewallRuleInput) : List String :=
  if input.Destination = "" ∨ input.Destination = fwAddressAllSentinel then []
  else ["-d", input.Destination]

/-! ## Rule reordering (iptables.go, `MoveRule`)

Go source of the mutation path:
```
func (s *IPTablesService) MoveRule(table, chain string, fromPos, toPos int) error {
    chainInfo, err := s.GetChain(table, chain)
    if err != nil { return err }
    if fromPos < 1 || fromPos > len(chainInfo.Rules) {
        return fmt.Errorf("invalid source position")
    }
    if err := s.DeleteRule(table, chain, fromPos); err != nil { return err }
    if toPos > fromPos { toPos-- }
    // Get updated rule spec and re-insert at new position
    // This is a simplified approach - ...
    return nil
}
```
The function deletes the rule at `fromPos`, computes the adjusted
destination, and returns without re-inserting anything. -/

/-- Model of `MoveRule` as a transition on the chain's rule list (the
listing `GetChain` returned): validity check, delete at the 1-based source
position, compute the adjusted destination (left unused, as in the source)
and return. -/
def moveRule (rules : List FirewallRule) (fromPos toPos : Nat) :
    Except String (List FirewallRule) :=
  if fromPos < 1 ∨ fromPos > rules.length then Except.error "invalid source position"
  else
    let afterDelete := rules.eraseIdx (fromPos - 1)
    let _adjusted := if toPos > fromPos then toPos - 1 else toPos
    Except.ok afterDelete

/-- Stated from the spec's move algorithm (§4.3): capture the full rule at
the source position, delete there, decrement the destination when it lies
beyond the source, and insert the captured rule at the adjusted 1-based
destination. -/
def moveRuleSpec (rules : List FirewallRule) (fromPos toPos : Nat) :
    Except String (List FirewallRule) :=
  if fromPos < 1 ∨ fromPos > rules.length then Except.error "invalid source position"
  else
    match rules.get? (fromPos - 1) with
    | none => Except.error "invalid source position"
    | some captured =>
      let afterDelete := rules.eraseIdx (fromPos - 1)
      let adjusted := if toPos > fromPos then toPos - 1 else toPos
      Except.ok (afterDelete.insertIdx (adjusted - 1) captured)

/-! ## Policy-rule persistence and deletion (iprule.go) -/

/-- The snapshot line `SaveRules` writes for one listed rule: `priority N`,
then the optional negation, the `from` selector unless empty or `all`, the
remaining selectors unless empty, and the action (`lookup T` when a table
is set, the bare action otherwise). -/
def saveRuleLine (r : IPRule) : String :=
  let line := "priority " ++ toString r.Priority
  let line := if r.Not then line ++ " not" else line
  let line := if r.From ≠ "" ∧ r.From ≠ "all" then line ++ " from " ++ r.From else line
  let line := if r.To ≠ "" then line ++ " to " ++ r.To else line
  let line := if r.FWMark ≠ "" then line ++ " fwmark " ++ r.FWMark else line
  let line := if r.IIF ≠ "" then line ++ " iif " ++ r.IIF else line
  let line := if r.OIF ≠ "" then line ++ " oif " ++ r.OIF else line
  let line :=
    if r.Table ≠ "" then line ++ " lookup " ++ r.Table
    else if r.Action ≠ "" then line ++ " " ++ r.Action
    else line
  line

/-- The reserved default priorities `SaveRules` skips. -/
def isReservedPriority (p : Nat) : Bool :=
  p = 0 || p = 32766 || p = 32767

/-- Model of the line-building loop of `SaveRules` (iprule.go): one line per
listed rule, skipping the reserved default priorities. -/
def saveRulesLines : List IPRule → List String
  | [] => []
  | r :: rest =>
    if r.Priority = 0 ∨ r.Priority = 32766 ∨ r.Priority = 32767 then saveRulesLines rest
    else saveRuleLine r :: saveRulesLines rest

/-- The file content `SaveRules` writes: the lines joined by newlines. -/
def saveRulesContent (rules : List IPRule) : String :=
  String.intercalate "\n" (saveRulesLines rules)

/-- Model of `DeleteRule` (iprule.go) as the argument list of the
invocation it executes: `rule del`, the priority when positive, and the
`from`/`to` selectors when non-empty. -/
def deleteRuleArgs (priority : Nat) (fromSel toSel : String) : List String :=
  let args := ["rule", "del"]
  let args := if priority > 0 then args ++ ["priority", toString priority] else args
  let args := if fromSel ≠ "" then args ++ ["from", fromSel] else args
  let args := if toSel ≠ "" then args ++ ["to", toSel] else args
  args

/-- Model of `DeleteByPriority` (iprule.go) over the rules of a fresh
listing: scan for the first rule carrying the priority and delete it with
its listed `from`/`to` selectors (`Except.ok` carries the delete
invocation's arguments); report a not-found error, issuing no delete
invocation, when no listed rule has the priority. -/
def deleteByPriority (rules : List IPRule) (priority : Nat) :
    Except String (List String) :=
  match rules with
  | [] => Except.error ("rule with priority " ++ toString priority ++ " not found")
  | r :: rest =>
    if r.Priority = priority then Except.ok (deleteRuleArgs priority r.From r.To)
    else deleteByPriority rest priority

/-! ## Restore loops (iproute.go `RestoreRoutes`, iprule.go `RestoreRules`)

Both loops execute one `add` invocation per stored line with
`exec.Command(...).Run()` and use none of `Run`'s results.  The external
execution port is modelled as a function from the invocation's argument
list to an optional failure; the loop records the invocations it issued
and the error value the Go function returns. -/

/-- Per-file line loop of `RestoreRoutes` for the routing table `table`:
skip blank and comment lines, re-add every other line (appending the table
selector for non-main tables), discard each invocation's outcome, and
finish with no error. -/
def restoreRoutesLoop (exec : List String → Option String) (table : String) :
    List String → List (List String) × Option String
  | [] => ([], none)
  | line :: rest =>
    let t := goTrimSpace line
    if t = "" ∨ goStartsWith t "#" then restoreRoutesLoop exec table rest
    else
      let args := ["route", "add"] ++ goFields t
      let args := if table ≠ "main" then args ++ ["table", table] else args
      let _ := exec args
      let res := restoreRoutesLoop exec table rest
      (args :: res.1, res.2)

/-- Model of the restore of one readable routes file (`RestoreRoutes`
body for a single `table.conf`). -/
def restoreRoutesFile (exec : List String → Option String) (table data : String) :
    List (List String) × Option String :=
  restoreRoutesLoop exec table (goScanLines data)

/-- Line loop of `RestoreRules`: skip blank and comment lines, replay every
other line as `rule add` plus the line's fields, discard each invocation's
outcome, and finish with no error. -/
def restoreRulesLoop (exec : List String → Option String) :
    List String → List (List String) × Option String
  | [] => ([], none)
  | line :: rest =>
    let t := goTrimSpace line
    if t = "" ∨ goStartsWith t "#" then restoreRulesLoop exec rest
    else
      let args := ["rule", "add"] ++ goFields t
      let _ := exec args
      let res := restoreRulesLoop exec rest
      (args :: res.1, res.2)

/-- Model of the restore of a readable rules file (`RestoreRules` body once
the snapshot has been read). -/
def restoreRulesFile (exec : List String → Option String) (data : String) :
    List (List String) × Option String :=
  restoreRulesLoop exec (goScanLines data)

/-! ## Aggregate restore (persist.go, `RestoreAll`) -/

/-- Rendering of a Go `[]string` by `fmt`'s `%v` verb, used in the
aggregate restore error message. -/
def goStringSliceFormat (xs : List String) : String :=
  "[" ++ String.intercalate " " xs ++ "]"

/-- Model of `RestoreAll` (persist.go).  The three domain restores are
modelled by their outcomes (`none` on success, `some msg` on failure); the
function returns the collected error list and the aggregate result, built
exactly as in the source: each domain's failure is appended in turn, and a
combined error is returned when any domain failed. -/
def restoreAll (iptablesRes routesRes rulesRes : Option String) :
    List String × Option String :=
  let errors : List String := []
  let errors := match iptablesRes with
    | some e => errors ++ ["iptables: " ++ e]
    | none => errors
  let errors := match routesRes with
    | some e => errors ++ ["routes: " ++ e]
    | none => errors
  let errors := match rulesRes with
    | some e => errors ++ ["rules: " ++ e]
    | none => errors
  (errors,
    if errors.length > 0 then
      some ("some configurations failed to restore: " ++ goStringSliceFormat errors)
    else none)

/-- The failure entry a domain contributes to the aggregate error list:
none on success, the prefixed message on failure. -/
def domainFailureEntry (domain : String) : Option String → List String
  | some e => [domain ++ ": " ++ e]
  | none => []

/-! ## Decidable equality for `Except` results -/

deriving instance DecidableEq for Except

/-! ## Sample inputs used by the concrete theorems below -/

/-- A firewall rule distinguished by its target, for concrete chains. -/
def fwSampleRule (t : String) : FirewallRule := { Target := t }

/-- A 5-rule chain listing. -/
def fwSampleChain : List FirewallRule :=
  [fwSampleRule "r1", fwSampleRule "r2", fwSampleRule "r3", fwSampleRule "r4",
    fwSampleRule "r5"]

/-- The route the parser produces for the broadcast listing line used in
`parseRouteLine_keyword_keeps_dest`. -/
def c4SampleRoute : Route where
  Destination := "broadcast"
  Typ := "broadcast"
  Interface := "eth0"
  Protocol := "kernel"
  Scope := "link"
  Source := "192.168.1.5"
  Table := "main"

/-- The rule parsed from the listing line `100:<TAB>lookup custom`, whose
selector text contains no `from` token. -/
def c5SampleRule : IPRule where
  Priority := 100
  Selector := "lookup custom"
  Table := "custom"
  Action := "lookup"

/-- A listed policy rule used by the concrete `DeleteByPriority` witness. -/
def c10SampleRule : IPRule where
  Priority := 100
  Selector := "from 10.0.0.0/24 lookup custom"
  From := "10.0.0.0/24"
  Table := "custom"
  Action := "lookup"


/-! ## C1: move operation -/

/-- Claim C1 (code bug): moving the rule at position 3 of a 5-rule chain to
position 1 should leave the former position-3 rule at 1, the former
positions 1 and 2 at 2 and 3, and positions 4 and 5 unchanged.  `MoveRule`
instead reports success with the chain merely shortened: it deletes the
source rule and never re-inserts the captured specification, diverging from
the spec's capture/delete/adjust/insert algorithm (`moveRuleSpec`). -/
theorem moveRule_stub_no_reinsert :
    moveRule fwSampleChain 3 1
      = Except.ok [fwSampleRule "r1", fwSampleRule "r2", fwSampleRule "r4",
        fwSampleRule "r5"]
    ∧ moveRuleSpec fwSampleChain 3 1
      = Except.ok [fwSampleRule "r3", fwSampleRule "r1", fwSampleRule "r2",
        fwSampleRule "r4", fwSampleRule "r5"]
    ∧ moveRule fwSampleChain 3 1 ≠ moveRuleSpec fwSampleChain 3 1 :=
  ⟨by decide, by decide, by decide⟩

/-! ## C2: import path-traversal guard -/

/-- Claim C2 (code bug): `ImportConfig` should reject every archive entry
whose resolved path escapes the store root before writing it.  The guard is
a plain string-prefix test on the cleaned path, so an entry named
`../config-evil/x` under the store root `/data/config` resolves to
`/data/config-evil/x` — outside the store root — yet passes the guard and
is written. -/
theorem importConfig_guard_bypass :
    importEntryCheck "/data/config" "../config-evil/x" = some "/data/config-evil/x"
    ∧ isWithinRoot "/data/config" "/data/config-evil/x" = false :=
  ⟨by decide, by decide⟩

/-! ## C3: counter-suffix decoding -/

/-- Claim C3, counterexample: decoding is not loss-free for every token.
For the token `18014398509481984G` the product `2 ^ 54 * 2 ^ 30 = 2 ^ 84`
wraps around Go's `uint64` and the parser returns 0. -/
theorem parseSuffixedNumber_overflow_cex :
    parseSuffixedNumber "18014398509481984G" = 0
    ∧ parseSuffixedNumber "18014398509481984G" ≠ 18014398509481984 * (1024 * 1024 * 1024) :=
  ⟨by decide, by decide⟩

/-- Claim C3 as amended: for every counter token made of decimal digits and
an optional K/M/G suffix, the parser returns the integer multiplied by 1,
1024, 1024² or 1024³ respectively, exactly — with no precision loss —
whenever the product fits in 64 bits (Go `uint64` arithmetic wraps
otherwise); in particular `253K` decodes to 259,072 and `49M` to
51,380,224. -/
theorem parseSuffixedNumber_exact (ds : List Char) (hne : ds ≠ [])
    (hdig : ∀ c ∈ ds, c.isDigit = true) (hval : digitsVal ds < 2 ^ 64) :
    parseSuffixedNumber (String.mk ds) = digitsVal ds
    ∧ (digitsVal ds * 1024 < 2 ^ 64 →
        parseSuffixedNumber (String.mk (ds ++ ['K'])) = digitsVal ds * 1024)
    ∧ (digitsVal ds * 1024 ^ 2 < 2 ^ 64 →
        parseSuffixedNumber (String.mk (ds ++ ['M'])) = digitsVal ds * 1024 ^ 2)
    ∧ (digitsVal ds * 1024 ^ 3 < 2 ^ 64 →
        parseSuffixedNumber (String.mk (ds ++ ['G'])) = digitsVal ds * 1024 ^ 3)
    ∧ parseSuffixedNumber "253K" = 259072
    ∧ parseSuffixedNumber "49M" = 51380224 := by
  have hgo : goParseUint64 ds = digitsVal ds := by
    unfold goParseUint64
    rw [if_pos ⟨hne, List.all_eq_true.mpr hdig⟩]
    omega
  have hKMG : ∀ c, c ∈ ds → ¬(c = 'K' ∨ c = 'M' ∨ c = 'G') := by
    intro c hc habs
    have := hdig c hc
    rcases habs with h | h | h <;> rw [h] at this <;> exact absurd this (by decide)
  refine ⟨?_, ?_, ?_, ?_, by decide, by decide⟩
  · have hlast := List.getLast_mem hne
    have hne2 := hKMG _ hlast
    unfold parseSuffixedNumber parseSuffixedNumberL
    rw [show (String.mk ds).data = ds from rfl]
    rw [List.getLast?_eq_getLast ds hne]
    simp only [if_neg (fun h => hne2 (Or.inl h)),
      if_neg (fun h => hne2 (Or.inr (Or.inl h))),
      if_neg (fun h => hne2 (Or.inr (Or.inr h)))]
    rw [hgo]
    omega
  · intro hfit
    unfold parseSuffixedNumber parseSuffixedNumberL
    rw [show (String.mk (ds ++ ['K'])).data = ds ++ ['K'] from rfl]
    rw [List.getLast?_concat]
    simp only [Char.reduceEq, reduceIte, List.dropLast_concat]
    rw [hgo]
    omega
  · intro hfit
    unfold parseSuffixedNumber parseSuffixedNumberL
    rw [show (String.mk (ds ++ ['M'])).data = ds ++ ['M'] from rfl]
    rw [List.getLast?_concat]
    simp only [Char.reduceEq, reduceIte, List.dropLast_concat]
    rw [hgo]
    have : digitsVal ds * 1024 ^ 2 = digitsVal ds * (1024 * 1024) := by ring
    omega
  · intro hfit
    unfold parseSuffixedNumber parseSuffixedNumberL
    rw [show (String.mk (ds ++ ['G'])).data = ds ++ ['G'] from rfl]
    rw [List.getLast?_concat]
    simp only [Char.reduceEq, reduceIte, List.dropLast_concat]
    rw [hgo]
    have : digitsVal ds * 1024 ^ 3 = digitsVal ds * (1024 * 1024 * 1024) := by ring
    omega

/-- Witness for `parseSuffixedNumber_exact` at the digit string `253`. -/
theorem parseSuffixedNumber_exact_witness :
    parseSuffixedNumber (String.mk (['2', '5', '3'] ++ ['K']))
      = digitsVal ['2', '5', '3'] * 1024 :=
  (parseSuffixedNumber_exact ['2', '5', '3'] (by decide) (by decide)
    (by decide)).2.1 (by decide)

/-! ## C4: route-type keyword handling -/


/-- Claim C4 (code bug): on a line led by a route-type keyword the parser
should extract the keyword as the type and re-assign the destination to the
following token.  The split that should do so runs on the already-isolated
first field — a single token that never contains a space — so the type is
recorded but the destination keeps the keyword instead of the real
destination `192.168.1.255`. -/
theorem parseRouteLine_keyword_keeps_dest :
    parseRouteLine "broadcast 192.168.1.255 dev eth0 proto kernel scope link src 192.168.1.5" "main"
      = some c4SampleRoute
    ∧ c4SampleRoute.Typ = "broadcast"
    ∧ c4SampleRoute.Destination = "broadcast"
    ∧ c4SampleRoute.Destination ≠ "192.168.1.255" :=
  ⟨by decide, by decide, by decide, by decide⟩

/-! ## C5: absent `from` selector -/

/-- Helper: the selector loop never changes the `Selector` field (it is
fixed when the line is matched and only read back by callers). -/
theorem parseRuleSelector_Selector_eq (r : IPRule) (ts : List String) :
    (parseRuleSelector r ts).Selector = r.Selector := by
  induction r, ts using parseRuleSelector.induct with
  | case1 r => rfl
  | _ =>
    first
    | (rw [parseRuleSelector.eq_def]
       simp only [String.reduceEq, reduceIte]
       all_goals
         first
         | rfl
         | (rename_i ih
            exact ih))
    | (rename_i h1 h2 h3 h4 h5 h6 h7 h8 h9 h10 ih
       rw [parseRuleSelector.eq_def]
       simp only [if_neg h1, if_neg h2, if_neg h3, if_neg h4, if_neg h5, if_neg h6,
         if_neg h7, if_neg h8, if_neg h9, if_neg h10]
       exact ih)

/-- Helper: when no `from` token occurs among the selector tokens, the
selector loop leaves the `From` field untouched. -/
theorem parseRuleSelector_From_eq (r : IPRule) (ts : List String)
    (h : "from" ∉ ts) : (parseRuleSelector r ts).From = r.From := by
  induction r, ts using parseRuleSelector.induct with
  | case1 r => rfl
  | _ =>
    first
    | exact (h (List.mem_cons_self _ _)).elim
    | (rw [parseRuleSelector.eq_def]
       simp only [String.reduceEq, reduceIte]
       all_goals
         first
         | rfl
         | (rename_i ih
            exact ih (fun hm => h (List.mem_cons_of_mem _ hm)))
         | (rename_i ih
            exact ih (fun hm => h (List.mem_cons_of_mem _ (List.mem_cons_of_mem _ hm)))))
    | (rename_i h1 h2 h3 h4 h5 h6 h7 h8 h9 h10 ih
       rw [parseRuleSelector.eq_def]
       simp only [if_neg h1, if_neg h2, if_neg h3, if_neg h4, if_neg h5, if_neg h6,
         if_neg h7, if_neg h8, if_neg h9, if_neg h10]
       exact ih (fun hm => h (List.mem_cons_of_mem _ hm)))


/-- Claim C5, counterexample: for the line `100:<TAB>lookup custom` — a
`priority: selector` line with no `from` token — the parsed rule's `from`
field is the empty string, not the domain's match-everything sentinel
`all`. -/
theorem parseRuleOutput_absent_from_cex :
    parseIPRuleLine "100:\tlookup custom" = some c5SampleRule
    ∧ "from" ∉ goFields c5SampleRule.Selector
    ∧ c5SampleRule.From ≠ ipRuleMatchAllSentinel :=
  ⟨by decide, by decide, by decide⟩

/-- Claim C5 as amended: for every policy-rule listing line of the form
`priority: selector-text` whose selector text contains no `from` token, the
parsed rule's `from` field is left empty (Go's zero value); the
match-everything sentinel `all` is supplied downstream instead (`AddRule`
emits `from all` when the field is empty, and `SaveRules` omits both the
empty and the `all` selector alike). -/
theorem parseIPRuleLine_absent_from_empty (line : String) (r : IPRule)
    (h1 : parseIPRuleLine line = some r)
    (h2 : "from" ∉ goFields r.Selector) : r.From = "" := by
  unfold parseIPRuleLine at h1
  by_cases ht : goTrimSpaceL line.data = []
  · rw [if_pos ht] at h1
    exact absurd h1 (by simp)
  · rw [if_neg ht] at h1
    cases hm : matchPriorityLine (goTrimSpaceL line.data) with
    | none =>
      rw [hm] at h1
      exact absurd h1 (by simp)
    | some caps =>
      rw [hm] at h1
      have hr := Option.some.inj h1
      have hsel : r.Selector = String.mk caps.2 := by
        rw [← hr]
        exact parseRuleSelector_Selector_eq _ _
      rw [← hr]
      exact parseRuleSelector_From_eq _ _ (by rw [hsel] at h2; exact h2)

/-- Witness for `parseIPRuleLine_absent_from_empty` at the sample line. -/
theorem parseIPRuleLine_absent_from_empty_witness : c5SampleRule.From = "" :=
  parseIPRuleLine_absent_from_empty "100:\tlookup custom" c5SampleRule
    (by decide) (by decide)

/-! ## C6: reserved priorities excluded from rule snapshots -/

/-- Claim C6: the snapshot `SaveRules` builds from a live listing drops
every rule with one of the reserved default priorities 0, 32766, 32767 —
even when such rules are listed — and contains exactly one canonical line
(`saveRuleLine`) for every other listed rule, in listing order. -/
theorem saveRules_excludes_reserved (rules : List IPRule) :
    saveRulesLines rules
      = (rules.filter (fun r => !isReservedPriority r.Priority)).map saveRuleLine := by
  induction rules with
  | nil => rfl
  | cons r rest ih =>
    by_cases h : r.Priority = 0 ∨ r.Priority = 32766 ∨ r.Priority = 32767
    · have hres : isReservedPriority r.Priority = true := by
        unfold isReservedPriority
        rcases h with h | h | h <;> simp [h]
      rw [show saveRulesLines (r :: rest) = saveRulesLines rest from by
        simp only [saveRulesLines, if_pos h]]
      rw [List.filter_cons, if_neg (by simp [hres]), ih]
    · have hres : isReservedPriority r.Priority = false := by
        unfold isReservedPriority
        push_neg at h
        simp [h.1, h.2.1, h.2.2]
      rw [show saveRulesLines (r :: rest) = saveRuleLine r :: saveRulesLines rest from by
        simp only [saveRulesLines, if_neg h]]
      rw [List.filter_cons, if_pos (by simp [hres]), List.map_cons, ih]

/-! ## C7: aggregate restore -/

/-- Claim C7: `RestoreAll` attempts all three domain restores regardless of
earlier failures — each domain's failure contributes its entry to the
collected error list independently of the other two — and returns one
aggregate error exactly when at least one domain failed, instead of
aborting at the first failure. -/
theorem restoreAll_collects_all_domains (e1 e2 e3 : Option String) :
    (restoreAll e1 e2 e3).1
      = domainFailureEntry "iptables" e1 ++ domainFailureEntry "routes" e2
        ++ domainFailureEntry "rules" e3
    ∧ ((restoreAll e1 e2 e3).2 = none ↔ e1 = none ∧ e2 = none ∧ e3 = none) := by
  cases e1 <;> cases e2 <;> cases e3 <;>
    simp [restoreAll, domainFailureEntry]

/-! ## C8: selector omission in the invocation builder -/

/-- Helper: a conditional append pulls out as an appended conditional
segment. -/
theorem append_ite {α : Type} (c : Prop) [Decidable c] (l x : List α) :
    (if c then l ++ x else l) = l ++ (if c then x else []) := by
  split <;> simp

/-- Helper: the argument accumulator threads through the tail of the
builder, so the tail's output is its initial accumulator followed by the
arguments the tail itself emits. -/
theorem buildRuleArgsRest_acc (input : FirewallRuleInput) (args0 : List String) :
    buildRuleArgsRest input args0 = args0 ++ buildRuleArgsRest input [] := by
  unfold buildRuleArgsRest
  simp only [append_ite]
  simp [List.append_assoc]

/-- Claim C8: the invocation `buildRuleArgs` constructs starts with the
three protocol/source/destination selector segments, each omitted exactly
when the field is empty or equals the domain's match-everything sentinel
(protocol `all`, address `0.0.0.0/0`) and otherwise present as the flag
with the field's value, followed by the remaining arguments. -/
theorem buildRuleArgs_selector_omission (input : FirewallRuleInput) :
    buildRuleArgs input
      = protocolArgsSpec input ++ sourceArgsSpec input ++ destinationArgsSpec input
        ++ buildRuleArgsRest input [] := by
  have hp : protocolArgsSpec input
      = if input.Protocol ≠ "" ∧ input.Protocol ≠ "all" then ["-p", input.Protocol]
        else [] := by
    unfold protocolArgsSpec fwProtocolAllSentinel
    by_cases h : input.Protocol = "" ∨ input.Protocol = "all"
    · rw [if_pos h, if_neg (by tauto)]
    · rw [if_neg h, if_pos (by tauto)]
  have hs : sourceArgsSpec input
      = if input.Source ≠ "" ∧ input.Source ≠ "0.0.0.0/0" then ["-s", input.Source]
        else [] := by
    unfold sourceArgsSpec fwAddressAllSentinel
    by_cases h : input.Source = "" ∨ input.Source = "0.0.0.0/0"
    · rw [if_pos h, if_neg (by tauto)]
    · rw [if_neg h, if_pos (by tauto)]
  have hd : destinationArgsSpec input
      = if input.Destination ≠ "" ∧ input.Destination ≠ "0.0.0.0/0" then
          ["-d", input.Destination]
        else [] := by
    unfold destinationArgsSpec fwAddressAllSentinel
    by_cases h : input.Destination = "" ∨ input.Destination = "0.0.0.0/0"
    · rw [if_pos h, if_neg (by tauto)]
    · rw [if_neg h, if_pos (by tauto)]
  rw [hp, hs, hd]
  unfold buildRuleArgs
  simp only [append_ite]
  rw [buildRuleArgsRest_acc]
  simp [List.append_assoc]

/-! ## C9: per-line restore failures are discarded -/

/-- Helper: the route-restore loop finishes with no error for every line
list and every behaviour of the execution port. -/
theorem restoreRoutesLoop_snd (exec : List String → Option String)
    (table : String) (lines : List String) :
    (restoreRoutesLoop exec table lines).2 = none := by
  induction lines with
  | nil => rfl
  | cons line rest ih =>
    simp only [restoreRoutesLoop]
    split
    · exact ih
    · simpa using ih

/-- Helper: the rule-restore loop finishes with no error for every line
list and every behaviour of the execution port. -/
theorem restoreRulesLoop_snd (exec : List String → Option String)
    (lines : List String) :
    (restoreRulesLoop exec lines).2 = none := by
  induction lines with
  | nil => rfl
  | cons line rest ih =>
    simp only [restoreRulesLoop]
    split
    · exact ih
    · simpa using ih

/-- Claim C9: for every readable stored snapshot the restore loops of
`RestoreRoutes` and `RestoreRules` report success whatever each per-line
add invocation returns — every per-line failure, of any kind, is discarded
and never reaches the caller or the aggregate restore report. -/
theorem restore_replay_discards_failures (exec : List String → Option String)
    (table data : String) :
    (restoreRoutesFile exec table data).2 = none
    ∧ (restoreRulesFile exec data).2 = none :=
  ⟨restoreRoutesLoop_snd exec table (goScanLines data),
   restoreRulesLoop_snd exec (goScanLines data)⟩

/-! ## C10: delete by priority -/

/-- Helper: when no listed rule carries the priority, `DeleteByPriority`
falls through the scan and reports the not-found error. -/
theorem deleteByPriority_not_found :
    ∀ (rules : List IPRule) (p : Nat), (∀ r ∈ rules, r.Priority ≠ p) →
      deleteByPriority rules p
        = Except.error ("rule with priority " ++ toString p ++ " not found")
  | [], _, _ => rfl
  | a :: rest, p, h => by
    have ha : ¬a.Priority = p := h a (List.mem_cons_self _ _)
    simp only [deleteByPriority, if_neg ha]
    exact deleteByPriority_not_found rest p (fun r hr => h r (List.mem_cons_of_mem _ hr))

/-- Helper: the scan of `DeleteByPriority` stops at the first rule carrying
the priority and issues the delete invocation built from that rule's listed
selectors. -/
theorem deleteByPriority_found :
    ∀ (pre : List IPRule) (r : IPRule) (post : List IPRule) (p : Nat),
      (∀ q ∈ pre, q.Priority ≠ p) → r.Priority = p →
      deleteByPriority (pre ++ r :: post) p
        = Except.ok (deleteRuleArgs p r.From r.To)
  | [], r, post, p, _, hr => by
    simp only [List.nil_append, deleteByPriority, if_pos hr]
  | a :: pre, r, post, p, h, hr => by
    have ha : ¬a.Priority = p := h a (List.mem_cons_self _ _)
    simp only [List.cons_append, deleteByPriority, if_neg ha]
    exact deleteByPriority_found pre r post p
      (fun q hq => h q (List.mem_cons_of_mem _ hq)) hr

/-- Claim C10: when the fresh listing contains no rule with the requested
priority, `DeleteByPriority` returns the not-found error and issues no
delete invocation (the error branch carries none), leaving live state
unchanged; when the listing contains such a rule, the delete invocation it
issues is built from that rule's `from` and `to` selectors as read from the
listing. -/
theorem deleteByPriority_contract (rules : List IPRule) (p : Nat) :
    ((∀ r ∈ rules, r.Priority ≠ p) →
      deleteByPriority rules p
        = Except.error ("rule with priority " ++ toString p ++ " not found"))
    ∧ (∀ pre r post, rules = pre ++ r :: post → (∀ q ∈ pre, q.Priority ≠ p) →
        r.Priority = p →
        deleteByPriority rules p = Except.ok (deleteRuleArgs p r.From r.To)) := by
  constructor
  · exact deleteByPriority_not_found rules p
  · intro pre r post hsplit hpre hr
    rw [hsplit]
    exact deleteByPriority_found pre r post p hpre hr


/-- Witness for `deleteByPriority_contract`: a one-rule listing, hit and
miss. -/
theorem deleteByPriority_contract_witness :
    deleteByPriority [c10SampleRule] 100
      = Except.ok (deleteRuleArgs 100 "10.0.0.0/24" "")
    ∧ deleteByPriority [c10SampleRule] 5
      = Except.error ("rule with priority " ++ toString 5 ++ " not found") :=
  ⟨(deleteByPriority_contract [c10SampleRule] 100).2 [] c10SampleRule [] rfl
      (by simp) (by decide),
   (deleteByPriority_contract [c10SampleRule] 5).1 (by decide)⟩
